import Mathlib

set_option maxRecDepth 2000

/-!
Verification development for the hydroponics controller firmware
(`Components/Src`): authentication challenge generator, console ring
buffers, command interpreter, mirrored timer counters, RTC backup
registers and the bootloader decision. C `uint32_t`/`uint16_t`
arithmetic is embedded as `Nat` with explicit `% 2^32` / `% 2^16`
reductions; bitwise C operators map to `Nat` bitwise operators.
-/

namespace HydroFw

/-! ### Authentication module (authentication.c)

`CERTIFY` holds the two 32-bit generator words `w` and `z`.
`auth_unlock` advances both words by one multiply-with-carry step and
compares the supplied key with `(z' << 16) + w'` (all in `uint32_t`
arithmetic).  Constants are transcribed from `authentication.c`
lines 21-22. -/

structure CERTIFY where
  w : Nat
  z : Nat
deriving DecidableEq

/-- `certify->z = (36967u * (certify->z & 0xFFFFu)) + (certify->z >> 16u) + 1u`
  in `uint32_t` arithmetic (`& 0xFFFF` is `% 2^16`, `>> 16` is `/ 2^16`). -/
def auth_step_z (z : Nat) : Nat :=
  (36967 * (z % 65536) + z / 65536 + 1) % 4294967296

/-- `certify->w = (18001u * (certify->w & 0xFFFFu)) + (certify->w >> 16u) + 1u`
  in `uint32_t` arithmetic. -/
def auth_step_w (w : Nat) : Nat :=
  (18001 * (w % 65536) + w / 65536 + 1) % 4294967296

/-- The challenge value `auth_unlock` compares the key with:
  `value = (z' << 16) + w'` over the advanced state (uint32 arithmetic). -/
def auth_next_value (c : CERTIFY) : Nat :=
  ((auth_step_z c.z * 65536) % 4294967296 + auth_step_w c.w) % 4294967296

/-- `auth_unlock` from authentication.c: advances `z` and `w`, forms
  `value = (z << 16) + w` (uint32) and returns `key == value` together with
  the mutated state. -/
def auth_unlock (c : CERTIFY) (key : Nat) : CERTIFY × Bool :=
  (⟨auth_step_w c.w, auth_step_z c.z⟩, key == auth_next_value c)

/-- `auth_renew_values` from authentication.c: `z += uptime & 0xF; z += tick`
  where `uptime` is `timer_get_uptime()` and `tick` is the module-timer
  snapshot written by `timer_reset_module_timer`.  Both are passed here as
  environment inputs; `uint32_t` addition wraps mod `2^32`. -/
def auth_renew_values (c : CERTIFY) (uptime tick : Nat) : CERTIFY :=
  { c with z := ((c.z + uptime % 16) % 4294967296 + tick) % 4294967296 }

/-! ### Timer module (timer.c)

Every field of the operational data is mirrored by a bitwise-complement
copy in `timer_data_red`.  `timer_get_tick` checks the complement
invariant; on mismatch it calls `timer_error` (which records the error
kind in the accumulating bitmask and clears the module status) and
returns `0`. -/

structure TIMER_DATA where
  status : Bool
  error : Nat
  uptime : Nat
  sec_timer : Nat
  bms_timer : Nat
  bms_time_flag : Nat
  tick : Nat
  tick_freq : Nat
deriving DecidableEq

structure TimerState where
  timer_data : TIMER_DATA
  timer_data_red : TIMER_DATA
deriving DecidableEq

/-- `TIMER_MEM_ERROR` from timer.h (memory coherency error, bit 0). -/
def TIMER_MEM_ERROR : Nat := 0

/-- `timer_error` from timer.c lines 264-271: clear the status flag, set the
  error bit in the accumulating bitmask, and keep the complement mirror
  consistent. -/
def timer_error (s : TimerState) (error : Nat) : TimerState :=
  { timer_data := { s.timer_data with
      status := false,
      error := s.timer_data.error ||| (1 <<< error) },
    timer_data_red := { s.timer_data_red with
      status := true,
      error := s.timer_data_red.error &&& ((1 <<< error) ^^^ 0xFFFFFFFF) } }

/-- `timer_get_tick` from timer.c lines 409-430: verify
  `tick == tick_red ^ 0xFFFFFFFF`; on mismatch report `TIMER_MEM_ERROR` and
  return 0, otherwise return the tick. -/
def timer_get_tick (s : TimerState) : TimerState × Nat :=
  let tick := s.timer_data.tick
  let tick_red := s.timer_data_red.tick
  if tick ≠ tick_red ^^^ 0xFFFFFFFF then
    (timer_error s TIMER_MEM_ERROR, 0)
  else
    (s, s.timer_data.tick)

/-! ### RTC backup registers (rtc.c)

The backup-register file is a map from register index to 32-bit value.
Register 0 is shared by the watchdog flag (tag byte `0x5A` in bits 31:24,
program counter in bits 23:0) and the loader flag (whole register equals
`0xC3`). -/

def Regs := Nat → Nat

/-- `HAL_RTCEx_BKUPWrite`: write one backup register. -/
def bkup_write (r : Regs) (reg val : Nat) : Regs :=
  fun i => if i = reg then val else r i

def RTC_WD_REG : Nat := 0
def RTC_LD_REG : Nat := 0

/-- `WD_FLAG` for the application build (`CBL` not defined). -/
def WD_FLAG : Nat := 0x5A

def LD_FLAG : Nat := 0xC3

/-- `rtc_set_wd_flag` from rtc.c lines 183-187: store the watchdog tag in the
  top byte and the 24-bit payload in the low bits. -/
def rtc_set_wd_flag (r : Regs) (val : Nat) : Regs :=
  bkup_write r RTC_WD_REG ((WD_FLAG <<< 24) ||| (val &&& 0xFFFFFF))

/-- `rtc_get_wd_flag` from rtc.c lines 189-201: if the stored tag byte
  (`(uint8_t)(ret >> 24)`) equals `WD_FLAG`, clear the register and return
  the 24-bit payload; otherwise change nothing and return `none`. -/
def rtc_get_wd_flag (r : Regs) : Regs × Option Nat :=
  if ((r RTC_WD_REG) >>> 24) % 256 = WD_FLAG then
    (bkup_write r RTC_WD_REG 0, some ((r RTC_WD_REG) &&& 0xFFFFFF))
  else
    (r, none)

/-- `rtc_get_loader_flag` from rtc.c lines 208-227: if the loader register
  holds exactly `LD_FLAG`, clear it and return true; otherwise return false
  without touching anything. -/
def rtc_get_loader_flag (r : Regs) : Regs × Bool :=
  if r RTC_LD_REG = LD_FLAG then
    (bkup_write r RTC_LD_REG 0, true)
  else
    (r, false)

/-- `rtc_set_loader_flag` from rtc.c lines 203-206. -/
def rtc_set_loader_flag (r : Regs) : Regs :=
  bkup_write r RTC_LD_REG LD_FLAG

/-! ### Bootloader decision (bootloader.c)

`bootloader_jump` runs once at startup: when the loader flag is set it
tears down the clock state and transfers control to the ROM bootloader
(the call never returns).  The embedding records the control transfer as
a boolean outcome next to the updated register file. -/

/-- `bootloader_jump` from bootloader.c lines 27-43.  The returned boolean is
  `true` exactly when `SysMemBootJump` is reached (control leaves the
  application and never returns). -/
def bootloader_jump (r : Regs) : Regs × Bool :=
  let res := rtc_get_loader_flag r
  (res.1, res.2)

/-- Concrete timer state whose primary tick is corrupted while the
  complement mirror still holds the complement of the original value 0. -/
def corruptTimerState : TimerState :=
  { timer_data := ⟨true, 0, 0, 0, 0, 0, 5, 1⟩,
    timer_data_red := ⟨false, 0xFFFFFFFF, 0xFFFFFFFF, 0xFFFFFFFF, 0xFFFFFFFF,
      0xFFFFFFFF, 0xFFFFFFFF, 0xFFFFFFFE⟩ }

/-- All-zero backup register file. -/
def zeroRegs : Regs := fun _ => 0

/-! ### RTC time/date validation (rtc.c)

`RTC_TimeTypeDef`/`RTC_DateTypeDef` are embedded with their `uint8_t`
fields as `Nat` (writers truncate with `% 256`). -/

structure RTC_Time where
  Hours : Nat
  Minutes : Nat
  Seconds : Nat
  SecondFraction : Nat
  DayLightSaving : Nat
  StoreOperation : Nat
deriving DecidableEq

structure RTC_Date where
  WeekDay : Nat
  Month : Nat
  Date : Nat
  Year : Nat
deriving DecidableEq

def RTC_WEEKDAY_TUESDAY : Nat := 2
def RTC_DAYLIGHTSAVING_NONE : Nat := 0
def RTC_STOREOPERATION_RESET : Nat := 0

/-- The out-of-range condition of `rtc_validate_and_correct`
  (rtc.c lines 105-110): year 16..99 (i.e. 2016..2099), month 1..12,
  day 1..31, hours 0..23, minutes 0..59, seconds 0..59. -/
def clock_out_of_range (t : RTC_Time) (d : RTC_Date) : Prop :=
  d.Year < 16 ∨ 99 < d.Year ∨ d.Month < 1 ∨ 12 < d.Month ∨
  d.Date < 1 ∨ 31 < d.Date ∨ 23 < t.Hours ∨ 59 < t.Minutes ∨ 59 < t.Seconds

instance clock_out_of_range_dec (t : RTC_Time) (d : RTC_Date) :
    Decidable (clock_out_of_range t d) := by
  unfold clock_out_of_range
  infer_instance

/-- `rtc_validate_and_correct` from rtc.c lines 102-131: reset the six
  clock fields to the 2000-01-01 00:00:00 defaults when any is out of
  range, always force the auxiliary fields, and report validity. -/
def rtc_validate_and_correct (t : RTC_Time) (d : RTC_Date) : (RTC_Time × RTC_Date) × Bool :=
  let success : Bool := if clock_out_of_range t d then false else true
  let t1 := if success then t else { t with Hours := 0, Minutes := 0, Seconds := 0 }
  let d1 := if success then d else { d with Year := 0, Month := 1, Date := 1 }
  let d2 := { d1 with WeekDay := RTC_WEEKDAY_TUESDAY }
  let t2 := { t1 with SecondFraction := 0, DayLightSaving := RTC_DAYLIGHTSAVING_NONE,
                      StoreOperation := RTC_STOREOPERATION_RESET }
  ((t2, d2), success)

/-! ### `strtoul(arg, NULL, 10)` (libc, 32-bit `unsigned long`)

Not part of the repository: modelled from the C standard for base 10 —
skip leading whitespace, optional sign, then decimal digits; the value
clamps to `ULONG_MAX` on overflow, and a leading `-` negates modulo
`2^32`. -/

def c_isspace (c : Char) : Bool :=
  c = ' ' || c = '\t' || c = '\n' || c = '\x0b' || c = '\x0c' || c = '\r'

def strtoul_digits : List Char → Nat → Nat
  | [], acc => acc
  | c :: cs, acc =>
    if 48 ≤ c.toNat ∧ c.toNat ≤ 57 then
      strtoul_digits cs (min (acc * 10 + (c.toNat - 48)) 4294967295)
    else acc

def strtoul10 (s : List Char) : Nat :=
  match s.dropWhile c_isspace with
  | '-' :: rest => (4294967296 - strtoul_digits rest 0) % 4294967296
  | '+' :: rest => strtoul_digits rest 0
  | s1 => strtoul_digits s1 0

/-! ### Command handlers (commands.c)

The mutable module state touched by the handlers of interest: the
unlock flag, the authentication generator, the backup registers, the
RTC clock, and whether a system reset has been requested.  Each handler
returns the new state and the text it prints. -/

structure SysState where
  unlocked_flag : Bool
  certify : CERTIFY
  regs : Regs
  rtc_time : RTC_Time
  rtc_date : RTC_Date
  reset_pending : Bool

/-- `bootloader_start` from bootloader.c lines 45-50: set the loader flag
  and request a safe system reset. -/
def bootloader_start (st : SysState) : SysState :=
  { st with regs := rtc_set_loader_flag st.regs, reset_pending := true }

/-- `cmd_reset` from commands.c lines 586-597 (accepted branch is an empty
  TODO body). -/
def cmd_reset (st : SysState) (argc : Nat) : SysState × String :=
  if argc = 1 ∧ st.unlocked_flag then (st, "") else (st, "Error\r\n")

/-- `cmd_off` from commands.c lines 599-610 (accepted branch is an empty
  TODO body). -/
def cmd_off (st : SysState) (argc : Nat) : SysState × String :=
  if argc = 1 ∧ st.unlocked_flag then (st, "") else (st, "Error\r\n")

/-- `cmd_load` from commands.c lines 612-623. -/
def cmd_load (st : SysState) (argc : Nat) : SysState × String :=
  if argc = 1 ∧ st.unlocked_flag then (bootloader_start st, "") else (st, "Error\r\n")

/-- `%02d` of printf: decimal, zero-padded to at least two digits. -/
def fmt02 (n : Nat) : String :=
  if n < 10 then "0" ++ Nat.repr n else Nat.repr n

/-- The `"OK, 20%02d %02d %02d  %02d %02d %02d\r\n"` line of `cmd_clock`. -/
def clock_print (t : RTC_Time) (d : RTC_Date) : String :=
  "OK, 20" ++ fmt02 d.Year ++ " " ++ fmt02 d.Month ++ " " ++ fmt02 d.Date ++ "  " ++
    fmt02 t.Hours ++ " " ++ fmt02 t.Minutes ++ " " ++ fmt02 t.Seconds ++ "\r\n"

/-- Argument decoding of `cmd_clock` (commands.c lines 515-526): parse the
  six fields with `strtoul`, subtract the year-2000 offset, truncate each
  to `uint8_t`. -/
def cmd_clock_decode (rt : RTC_Time) (rd : RTC_Date) (argv : List String) : RTC_Time × RTC_Date :=
  let year0 := strtoul10 (argv.getD 1 "").data
  let year := if 2000 < year0 then year0 - 2000 else year0
  ({ rt with Hours := strtoul10 (argv.getD 4 "").data % 256,
             Minutes := strtoul10 (argv.getD 5 "").data % 256,
             Seconds := strtoul10 (argv.getD 6 "").data % 256 },
   { rd with Year := year % 256,
             Month := strtoul10 (argv.getD 2 "").data % 256,
             Date := strtoul10 (argv.getD 3 "").data % 256 })

/-- `cmd_clock` from commands.c lines 507-534: with 7 arguments and the
  device unlocked, decode, validate-and-correct, and write the clock;
  in every case print the `OK, ...` line with the values finally held in
  the local time/date variables. -/
def cmd_clock (st : SysState) (argc : Nat) (argv : List String) : SysState × String :=
  if argc = 7 ∧ st.unlocked_flag then
    let dec := cmd_clock_decode st.rtc_time st.rtc_date argv
    let vr := rtc_validate_and_correct dec.1 dec.2
    ({ st with rtc_time := vr.1.1, rtc_date := vr.1.2 }, clock_print vr.1.1 vr.1.2)
  else
    (st, clock_print st.rtc_time st.rtc_date)

/-- `cmd_password` from commands.c lines 703-731.  `uptime`/`tick` are the
  timer readings consumed by `auth_renew_values`. -/
def cmd_password (st : SysState) (uptime tick : Nat) (argc : Nat) (argv : List String) :
    SysState × String :=
  let st := { st with unlocked_flag := false }
  if argc < 2 then
    let c2 := (auth_unlock (auth_renew_values st.certify uptime tick) 0).1
    ({ st with certify := c2 },
     "OK " ++ Nat.repr c2.z ++ " " ++ Nat.repr c2.w ++ "\r\n")
  else
    let res := auth_unlock st.certify (strtoul10 (argv.getD 1 "").data)
    let unlocked := res.2 || ((argv.getD 1 "") == "N3k0c0")
    if unlocked then
      ({ st with certify := res.1, unlocked_flag := true }, "OK\r\n")
    else
      ({ st with certify := res.1 }, "ERROR\r\n")

/-! ### Tokenizer `nsplit` (commands.c lines 246-300)

The mutable line buffer is a map from offset to byte (`'\x00'` past the
end, as in the NUL-terminated C buffer) and the argument array a map
from slot to offset.  The while loops are embedded with an explicit
fuel that dominates their loop bounds (`i` strictly increases every
outer iteration and is bounded by `length`; the quote lookahead is
bounded by 5). -/

def upd_buf (f : Nat → Char) (k : Nat) (c : Char) : Nat → Char :=
  fun j => if j = k then c else f j

def upd_out (f : Nat → Nat) (k v : Nat) : Nat → Nat :=
  fun j => if j = k then v else f j

structure NsplitSt where
  buf : Nat → Char
  out : Nat → Nat
  index_in : Nat
  i : Nat
  tq : Nat
  num : Nat

/-- The bounded quote lookahead:
  `while ((*out[num-1] != '"') && (lim < 5)) { out[num-1]++; lim++; }`
  returning the final pointer. -/
def quote_advance (buf : Nat → Char) (p lim : Nat) : Nat → Nat
  | 0 => p
  | fuel + 1 =>
    if buf p ≠ '"' ∧ lim < 5 then quote_advance buf (p + 1) (lim + 1) fuel else p

/-- The divider-stripping loop of `nsplit`: state is
  `(index_in, out[num], i)`. -/
def strip_leading (buf : Nat → Char) (length : Nat) (div_char : Char) :
    Nat → Nat × Nat × Nat → Nat × Nat × Nat
  | 0, st => st
  | fuel + 1, (index_in, outv, i) =>
    if i < length ∧ buf index_in ≠ '\x00' ∧ buf index_in = div_char then
      strip_leading buf length div_char fuel (index_in + 1, outv + 1, i + 1)
    else (index_in, outv, i)

def nsplit_loop (div_char : Char) (length max_num : Nat) : Nat → NsplitSt → NsplitSt
  | 0, st => st
  | fuel + 1, st =>
    if st.i < length ∧ st.num < max_num ∧ st.buf st.index_in ≠ '\x00' then
      let st1 :=
        if st.buf st.index_in = '"' then
          let tq := st.tq ^^^ 1
          let out1 :=
            if tq = 1 then
              upd_out st.out (st.num - 1) (quote_advance st.buf (st.out (st.num - 1)) 0 5 + 1)
            else st.out
          { st with tq := tq, out := out1, buf := upd_buf st.buf st.index_in ' ' }
        else st
      let st2 :=
        if st1.buf st1.index_in = div_char ∧ st1.tq = 0 then
          let buf1 := upd_buf st1.buf st1.index_in '\x00'
          let r := strip_leading buf1 length div_char (length + 1)
            (st1.index_in + 1, st1.index_in + 1, st1.i + 1)
          let num1 := if buf1 r.1 ≠ '\x00' then st1.num + 1 else st1.num
          { st1 with buf := buf1, out := upd_out st1.out st1.num r.2.1,
                     index_in := r.1, i := r.2.2, num := num1 }
        else
          { st1 with index_in := st1.index_in + 1, i := st1.i + 1 }
      nsplit_loop div_char length max_num fuel st2
    else st

/-- `nsplit` from commands.c lines 246-300: returns
  `(num, argument-offset array, final buffer)`. -/
def nsplit (s : List Char) (div_char : Char) (max_num : Nat) :
    Nat × (Nat → Nat) × (Nat → Char) :=
  let length := (s.takeWhile (fun c => c ≠ '\x00')).length
  let buf0 : Nat → Char := fun i => if h : i < s.length then s.get ⟨i, h⟩ else '\x00'
  let st0 : NsplitSt :=
    { buf := buf0, out := fun _ => 0, index_in := 0, i := 0, tq := 0, num := 1 }
  let st1 := nsplit_loop div_char length max_num (length + 1) st0
  (st1.num, st1.out, upd_buf st1.buf st1.index_in '\x00')

/-- Read the NUL-terminated token starting at offset `p`. -/
def cstring (buf : Nat → Char) : Nat → Nat → List Char
  | _, 0 => []
  | p, fuel + 1 => if buf p = '\x00' then [] else buf p :: cstring buf (p + 1) fuel

/-! ### Command dispatch (commands.c lines 322-393)

After a fresh (non-`!`) line is received, `command_execute` tokenizes it
into `argv` with `nsplit(line, ' ', 160)` and linearly scans the command
table for the first entry whose non-NULL handler name equals `argv[0]`;
when the scan falls through it prints `Command not found!` only for a
non-empty first token.  Handlers are identified by `CmdId` (`help` and
`?` share one handler, and `led`/`logging` are compiled out by
`DISABLE_LED`/`DISABLE_LOGGING`). -/

inductive CmdId where
  | help | version | clear | uptime | clock | temp_stat | password | reset | off | load
deriving DecidableEq

/-- `command_table` from commands.c lines 182-203 for this build
  configuration; the final sentinel has a NULL handler. -/
def command_table : List (List Char × Option CmdId) :=
  [("help".data, some .help), ("?".data, some .help), ("version".data, some .version),
   ("clear".data, some .clear), ("uptime".data, some .uptime), ("clock".data, some .clock),
   ("temp_stat".data, some .temp_stat), ("password".data, some .password),
   ("reset".data, some .reset), ("off".data, some .off), ("load".data, some .load),
   ([], none)]

def command_num : Nat := command_table.length

/-- The linear scan: first index whose entry has a non-NULL handler and a
  name equal to `argv[0]`; `command_num` when the loop falls through. -/
def command_scan_aux (argv0 : List Char) : Nat → List (List Char × Option CmdId) → Nat
  | i, [] => i
  | i, e :: rest => if e.2.isSome ∧ e.1 = argv0 then i else command_scan_aux argv0 (i + 1) rest

def command_scan (argv0 : List Char) : Nat := command_scan_aux argv0 0 command_table

/-- `argv[k]` produced by `nsplit` for a received line. -/
def nth_token (line : List Char) (k : Nat) : List Char :=
  let r := nsplit line ' ' 160
  cstring r.2.2 (r.2.1 k) (line.length + 1)

/-- `argv[0]` produced by `nsplit` for a received line. -/
def first_token (line : List Char) : List Char :=
  nth_token line 0

/-- The handler invoked by the dispatch loop of `command_execute` for a
  freshly received line (`none` when the scan falls through or hits the
  NULL-handler sentinel). -/
def command_invoked (line : List Char) : Option CmdId :=
  command_table[command_scan (first_token line)]?.bind Prod.snd

/-- Whether `command_execute` prints `Command not found!`: the scan index
  reached `command_num - 1` and `strlen(argv[0]) > 0`. -/
def command_not_found_printed (line : List Char) : Bool :=
  decide (command_num - 1 ≤ command_scan (first_token line)) &&
    decide (0 < (first_token line).length)

/-- The dispatch portion of `command_execute` (commands.c lines 366-392)
  on a freshly received line: the invoked handler (if any) and whether
  `Command not found!` is printed. -/
def command_dispatch (line : List Char) : Option CmdId × Bool :=
  (command_invoked line, command_not_found_printed line)

/-- A locked system state with the clock reading 2024-05-06 01:02:03,
  used as concrete input below. -/
def lockedState : SysState :=
  { unlocked_flag := false, certify := ⟨0, 0⟩, regs := zeroRegs,
    rtc_time := ⟨1, 2, 3, 0, 0, 0⟩, rtc_date := ⟨2, 5, 6, 24⟩, reset_pending := false }

/-- A well-formed 7-token `clock` argument vector. -/
def clockArgs7 : List String := ["clock", "2024", "5", "6", "1", "2", "3"]

/-! ### Console ring buffers (console.c)

`CONSOLE_BUFFER` holds the backing byte array (a map from array offset
to byte), the `uint16_t` wrapping indices `index_in`/`index_out`, and
the fixed capacity `length` (`CONSOLE_RX_BUF_LEN = 320` for receive,
`CONSOLE_TX_BUF_LEN = 1024` for transmit).  Occupancy is the `uint16_t`
difference `index_in - index_out`; the array offset is reduced modulo
`length` only on dereference. -/

structure CONSOLE_BUFFER where
  buffer : Nat → Char
  index_in : Nat
  index_out : Nat
  length : Nat

/-- `(uint16_t)(index_in - index_out)` for `index_in, index_out < 2^16`
  (console.c line 447). -/
def console_get_buffered_length (buf : CONSOLE_BUFFER) : Nat :=
  (buf.index_in + 65536 - buf.index_out) % 65536

/-- `console_is_buffer_full` from console.c lines 436-443. -/
def console_is_buffer_full (buf : CONSOLE_BUFFER) : Bool :=
  decide (buf.length ≤ console_get_buffered_length buf)

/-- `console_enq_buffer` from console.c lines 393-404: reject when full,
  otherwise store at `index_in % length` and advance `index_in`. -/
def console_enq_buffer (buf : CONSOLE_BUFFER) (ch : Char) : CONSOLE_BUFFER × Bool :=
  if console_is_buffer_full buf = false then
    ({ buf with buffer := upd_buf buf.buffer (buf.index_in % buf.length) ch,
                index_in := (buf.index_in + 1) % 65536 }, true)
  else
    (buf, false)

/-- `console_deq_buffer` from console.c lines 406-434: read at
  `index_out % length`, advance `index_out`, and when the buffer drains
  empty reset both indices to the incremented dereference offset. -/
def console_deq_buffer (buf : CONSOLE_BUFFER) : CONSOLE_BUFFER × Option Char :=
  if buf.index_in ≠ buf.index_out then
    let i := buf.index_out % buf.length
    let ch := buf.buffer i
    let i1 := (i + 1) % 65536
    let out1 := (buf.index_out + 1) % 65536
    if buf.index_in = out1 then
      ({ buf with index_in := i1, index_out := i1 }, some ch)
    else
      ({ buf with index_out := out1 }, some ch)
  else
    (buf, none)

/-- `console_init_buffer` (console.c lines 387-391) on the zero-initialized
  static backing array. -/
def console_init_buffer (n : Nat) : CONSOLE_BUFFER :=
  { buffer := fun _ => '\x00', index_in := 0, index_out := 0, length := n }

inductive ConsoleOp where
  | enq (ch : Char)
  | deq
deriving DecidableEq

/-- Run a sequence of enqueue/dequeue operations, collecting the final
  state, the successfully enqueued bytes and the dequeued bytes. -/
def console_run : CONSOLE_BUFFER → List ConsoleOp → CONSOLE_BUFFER × List Char × List Char
  | buf, [] => (buf, [], [])
  | buf, ConsoleOp.enq ch :: ops =>
    let r := console_enq_buffer buf ch
    let rest := console_run r.1 ops
    (rest.1, (if r.2 then [ch] else []) ++ rest.2.1, rest.2.2)
  | buf, ConsoleOp.deq :: ops =>
    let r := console_deq_buffer buf
    let rest := console_run r.1 ops
    (rest.1, rest.2.1, r.2.toList ++ rest.2.2)

/-- Occupancy invariant: 16-bit indices and occupancy bounded by the
  capacity. -/
def InvLen (n : Nat) (s : CONSOLE_BUFFER) : Prop :=
  s.length = n ∧ s.index_in < 65536 ∧ s.index_out < 65536 ∧
    console_get_buffered_length s ≤ n

/-- Abstraction invariant relating the concrete ring buffer to the queue
  `q` of pending bytes: there are unbounded virtual counters whose 16-bit
  truncations are the stored indices, whose difference is the queue
  length, and the pending bytes live at consecutive offsets mod `n`. -/
def Inv (n : Nat) (q : List Char) (s : CONSOLE_BUFFER) : Prop :=
  s.length = n ∧
  ∃ bIN bOUT : Nat, bOUT ≤ bIN ∧ bIN - bOUT = q.length ∧ q.length ≤ n ∧
    s.index_in = bIN % 65536 ∧ s.index_out = bOUT % 65536 ∧
    ∀ k, k < q.length → s.buffer ((bOUT + k) % n) = q.getD k ' '

/-- The cycle phase of the FIFO counterexample: `m` repetitions of
  enqueue-then-dequeue, advancing both indices by one per cycle. -/
def cycleOps : Nat → List ConsoleOp
  | 0 => []
  | m + 1 => cycleOps m ++ [ConsoleOp.enq 'X', ConsoleOp.deq]

/-- State reached on the capacity-320 buffer after two initial enqueues
  and `m` cycles. -/
def cycState (m : Nat) (s : CONSOLE_BUFFER) : Prop :=
  s.length = 320 ∧ s.index_in = m + 2 ∧ s.index_out = m ∧
    ∀ k, k ≤ m + 1 → s.buffer (k % 320) = 'X'

/-- State on the capacity-320 buffer after `t` additional `'B'` enqueues
  past the 16-bit index wrap. -/
def bState (t : Nat) (s : CONSOLE_BUFFER) : Prop :=
  s.length = 320 ∧ s.index_in = t ∧ s.index_out = 65533 ∧
    ∀ k, k < t → s.buffer k = 'B'

/-- Operation sequence on the capacity-320 receive buffer that drives
  `index_in` across the 16-bit wrap and then overwrites pending bytes:
  2 + 65533 enqueues of `'X'` interleaved so that occupancy stays small,
  one `'A'`, 256 `'B'`s (all accepted, occupancy peaks at 259 < 320),
  then three dequeues. -/
def cexOps : List ConsoleOp :=
  ([ConsoleOp.enq 'X', ConsoleOp.enq 'X'] ++ cycleOps 65533) ++
    ([ConsoleOp.enq 'A'] ++
      (List.replicate 256 (ConsoleOp.enq 'B') ++
        [ConsoleOp.deq, ConsoleOp.deq, ConsoleOp.deq]))

/-- A small demonstration sequence on the 1024-byte transmit buffer. -/
def opsDemo : List ConsoleOp := [ConsoleOp.enq 'a', ConsoleOp.enq 'b', ConsoleOp.deq]

/-! ## Theorems -/

theorem lor_hi24 (v : Nat) (hv : v < 2 ^ 24) :
    ((90 <<< 24) ||| v) >>> 24 = 90 := by
  apply Nat.eq_of_testBit_eq
  intro i
  have hvb : v.testBit (24 + i) = false :=
    Nat.testBit_lt_two_pow (lt_of_lt_of_le hv (Nat.pow_le_pow_right (by norm_num) (by omega)))
  rw [Nat.testBit_shiftRight, Nat.testBit_or, Nat.testBit_shiftLeft, hvb]
  have h1 : 24 + i - 24 = i := by omega
  have h2 : 24 ≤ 24 + i := by omega
  simp [h1, ge_iff_le, h2]

theorem lor_lo24 (v : Nat) (hv : v < 2 ^ 24) :
    ((90 <<< 24) ||| v) &&& 16777215 = v := by
  have e : (16777215 : Nat) = 2 ^ 24 - 1 := by norm_num
  rw [e, Nat.and_pow_two_sub_one_eq_mod]
  apply Nat.eq_of_testBit_eq
  intro i
  rw [Nat.testBit_mod_two_pow, Nat.testBit_or, Nat.testBit_shiftLeft]
  by_cases hi : i < 24
  · have h24 : ¬ (24 ≤ i) := by omega
    simp [hi, ge_iff_le, h24]
  · have hvb : v.testBit i = false :=
      Nat.testBit_lt_two_pow (lt_of_lt_of_le hv (Nat.pow_le_pow_right (by norm_num) (by omega)))
    simp [hi, hvb]

/-- C1 (counterexample): the claimed update constants 36969/18000 do not
  match the code.  At state `w = z = 1` the code computes
  `z' = 36967*1 + 0 + 1 = 36968`, not `36969*1 + 0 + 1 = 36970` (and
  similarly for `w`). -/
theorem auth_unlock_claim_counterexample :
    ¬ ((auth_unlock ⟨1, 1⟩ 0).1.z = (36969 * (1 % 65536) + 1 / 65536 + 1) % 4294967296 ∧
       (auth_unlock ⟨1, 1⟩ 0).1.w = (18000 * (1 % 65536) + 1 / 65536 + 1) % 4294967296) := by
  decide

/-- C1 (amended): for every authentication state `(w, z)` and every key,
  `auth_unlock` updates the state exactly by
  `z' = 36967*(z & 0xFFFF) + (z >> 16) + 1` and
  `w' = 18001*(w & 0xFFFF) + (w >> 16) + 1` (uint32 arithmetic), and returns
  true if and only if `key == (z' << 16) + w'` (uint32 arithmetic). -/
theorem auth_unlock_spec (c : CERTIFY) (key : Nat) :
    (auth_unlock c key).1.z = (36967 * (c.z % 65536) + c.z / 65536 + 1) % 4294967296 ∧
    (auth_unlock c key).1.w = (18001 * (c.w % 65536) + c.w / 65536 + 1) % 4294967296 ∧
    ((auth_unlock c key).2 = true ↔
      key = (((auth_unlock c key).1.z * 65536) % 4294967296 +
             (auth_unlock c key).1.w) % 4294967296) := by
  refine ⟨rfl, rfl, ?_⟩
  simp [auth_unlock, auth_next_value, Nat.mod_add_mod]

/-- C4: when the primary tick counter disagrees with the complement mirror,
  `timer_get_tick` returns 0 instead of the corrupted value, clears the
  module status flag, and sets the memory-error bit (bit `TIMER_MEM_ERROR`)
  in the accumulating error bitmask.  The embedding is a total function:
  the error path returns normally and never halts. -/
theorem timer_get_tick_corrupted (s : TimerState)
    (h : s.timer_data.tick ≠ s.timer_data_red.tick ^^^ 0xFFFFFFFF) :
    (timer_get_tick s).2 = 0 ∧
    (timer_get_tick s).1.timer_data.status = false ∧
    (timer_get_tick s).1.timer_data.error =
      s.timer_data.error ||| (1 <<< TIMER_MEM_ERROR) := by
  simp [timer_get_tick, h, timer_error]

theorem timer_get_tick_corrupted_witness :
    corruptTimerState.timer_data.tick ≠
      corruptTimerState.timer_data_red.tick ^^^ 0xFFFFFFFF ∧
    ((timer_get_tick corruptTimerState).2 = 0 ∧
     (timer_get_tick corruptTimerState).1.timer_data.status = false ∧
     (timer_get_tick corruptTimerState).1.timer_data.error =
       corruptTimerState.timer_data.error ||| (1 <<< TIMER_MEM_ERROR)) :=
  ⟨by decide, timer_get_tick_corrupted corruptTimerState (by decide)⟩

/-- C5: storing a 24-bit payload with `rtc_set_wd_flag` and reading it back
  with `rtc_get_wd_flag` yields the payload exactly once and clears the
  register, so a second read returns nothing; and whenever the stored tag
  byte is not `WD_FLAG`, the read changes nothing and returns nothing. -/
theorem rtc_wd_flag_spec (r : Regs) (val : Nat) (hval : val < 2 ^ 24) :
    (rtc_get_wd_flag (rtc_set_wd_flag r val)).2 = some val ∧
    (rtc_get_wd_flag (rtc_set_wd_flag r val)).1 RTC_WD_REG = 0 ∧
    (rtc_get_wd_flag ((rtc_get_wd_flag (rtc_set_wd_flag r val)).1)).2 = none ∧
    (rtc_get_wd_flag ((rtc_get_wd_flag (rtc_set_wd_flag r val)).1)).1 =
      (rtc_get_wd_flag (rtc_set_wd_flag r val)).1 ∧
    (∀ r' : Regs, (r' RTC_WD_REG >>> 24) % 256 ≠ WD_FLAG →
      rtc_get_wd_flag r' = (r', none)) := by
  have hmask : val &&& 16777215 = val := by
    have e : (16777215 : Nat) = 2 ^ 24 - 1 := by norm_num
    rw [e]
    exact Nat.and_pow_two_sub_one_of_lt_two_pow hval
  have hstore : rtc_set_wd_flag r val RTC_WD_REG = (90 <<< 24) ||| val := by
    rw [rtc_set_wd_flag]
    show (if RTC_WD_REG = RTC_WD_REG then (WD_FLAG <<< 24) ||| (val &&& 16777215) else r RTC_WD_REG) = _
    rw [if_pos rfl, hmask]
    rfl
  have hflag : ((rtc_set_wd_flag r val RTC_WD_REG) >>> 24) % 256 = WD_FLAG := by
    rw [hstore, lor_hi24 val hval]
    decide
  have hpayload : (rtc_set_wd_flag r val RTC_WD_REG) &&& 0xFFFFFF = val := by
    rw [hstore]
    exact lor_lo24 val hval
  have hget : rtc_get_wd_flag (rtc_set_wd_flag r val) =
      (bkup_write (rtc_set_wd_flag r val) RTC_WD_REG 0,
       some ((rtc_set_wd_flag r val RTC_WD_REG) &&& 0xFFFFFF)) := by
    rw [rtc_get_wd_flag, if_pos hflag]
  have hcleared : (bkup_write (rtc_set_wd_flag r val) RTC_WD_REG 0) RTC_WD_REG = 0 := by
    simp [bkup_write]
  have hneq : (((bkup_write (rtc_set_wd_flag r val) RTC_WD_REG 0) RTC_WD_REG) >>> 24) % 256 ≠
      WD_FLAG := by
    rw [hcleared]
    decide
  refine ⟨?_, ?_, ?_, ?_, ?_⟩
  · rw [hget]
    exact congrArg some hpayload
  · rw [hget]
    exact hcleared
  · rw [hget]
    show (rtc_get_wd_flag (bkup_write (rtc_set_wd_flag r val) RTC_WD_REG 0)).2 = none
    rw [rtc_get_wd_flag, if_neg hneq]
  · rw [hget]
    show (rtc_get_wd_flag (bkup_write (rtc_set_wd_flag r val) RTC_WD_REG 0)).1 = _
    rw [rtc_get_wd_flag, if_neg hneq]
  · intro r' hr'
    rw [rtc_get_wd_flag, if_neg hr']

theorem rtc_wd_flag_spec_witness :
    (5 : Nat) < 2 ^ 24 ∧
    ((rtc_get_wd_flag (rtc_set_wd_flag zeroRegs 5)).2 = some 5 ∧
     (rtc_get_wd_flag (rtc_set_wd_flag zeroRegs 5)).1 RTC_WD_REG = 0 ∧
     (rtc_get_wd_flag ((rtc_get_wd_flag (rtc_set_wd_flag zeroRegs 5)).1)).2 = none ∧
     (rtc_get_wd_flag ((rtc_get_wd_flag (rtc_set_wd_flag zeroRegs 5)).1)).1 =
       (rtc_get_wd_flag (rtc_set_wd_flag zeroRegs 5)).1 ∧
     (∀ r' : Regs, (r' RTC_WD_REG >>> 24) % 256 ≠ WD_FLAG →
       rtc_get_wd_flag r' = (r', none))) :=
  ⟨by norm_num, rtc_wd_flag_spec zeroRegs 5 (by norm_num)⟩

/-- C6: `bootloader_jump` transfers control to the bootloader (boolean
  outcome `true`) exactly when the loader backup register holds the loader
  tag, clearing that register first; otherwise it returns with the register
  file untouched. -/
theorem bootloader_jump_spec (r : Regs) :
    (bootloader_jump r).2 = decide (r RTC_LD_REG = LD_FLAG) ∧
    (bootloader_jump r).1 =
      (if r RTC_LD_REG = LD_FLAG then bkup_write r RTC_LD_REG 0 else r) := by
  by_cases h : r RTC_LD_REG = LD_FLAG <;>
    simp [bootloader_jump, rtc_get_loader_flag, h]

/-- C3 (counterexample): `cmd_clock` invoked with 7 arguments while locked
  does not print `Error\r\n`; it prints the `OK, ...` read-back of the
  current clock (and writes nothing). -/
theorem cmd_clock_locked_counterexample :
    (cmd_clock lockedState 7 clockArgs7).2 ≠ "Error\r\n" ∧
    (cmd_clock lockedState 7 clockArgs7).1 = lockedState ∧
    (cmd_clock lockedState 7 clockArgs7).2 =
      clock_print lockedState.rtc_time lockedState.rtc_date := by
  refine ⟨by decide, rfl, rfl⟩

/-- C3 (amended): `cmd_reset`, `cmd_off` and `cmd_load` print exactly
  `Error\r\n` and change no state whenever `argc ≠ 1` or the device is
  locked; `cmd_clock` invoked with 7 arguments while locked does not write
  the clock and prints the current-clock `OK, ...` line instead of
  `Error\r\n`. -/
theorem cmd_rejection_spec (st : SysState) (argc : Nat) (argv : List String)
    (h : ¬ (argc = 1 ∧ st.unlocked_flag = true)) :
    cmd_reset st argc = (st, "Error\r\n") ∧
    cmd_off st argc = (st, "Error\r\n") ∧
    cmd_load st argc = (st, "Error\r\n") ∧
    (st.unlocked_flag = false →
      (cmd_clock st 7 argv).1 = st ∧
      (cmd_clock st 7 argv).2 = clock_print st.rtc_time st.rtc_date) := by
  refine ⟨?_, ?_, ?_, ?_⟩
  · simp [cmd_reset, h]
  · simp [cmd_off, h]
  · simp [cmd_load, h]
  · intro hlock
    constructor
    · simp [cmd_clock, hlock]
    · simp [cmd_clock, hlock]

theorem cmd_rejection_spec_witness :
    ¬ ((0 : Nat) = 1 ∧ lockedState.unlocked_flag = true) ∧
    (cmd_reset lockedState 0 = (lockedState, "Error\r\n") ∧
     cmd_off lockedState 0 = (lockedState, "Error\r\n") ∧
     cmd_load lockedState 0 = (lockedState, "Error\r\n") ∧
     (lockedState.unlocked_flag = false →
       (cmd_clock lockedState 7 clockArgs7).1 = lockedState ∧
       (cmd_clock lockedState 7 clockArgs7).2 =
         clock_print lockedState.rtc_time lockedState.rtc_date)) :=
  ⟨by decide, cmd_rejection_spec lockedState 0 clockArgs7 (by decide)⟩

/-- C7: `cmd_password` with no argument (argc 1) advances the generator and
  prints the challenge `OK <z> <w>` while leaving the device locked; with
  one argument (argc 2) it unlocks and prints `OK` exactly when the parsed
  argument equals the next LCG value or the argument is the bypass literal
  `N3k0c0`, and otherwise prints `ERROR` with the device still locked. -/
theorem cmd_password_spec (st : SysState) (uptime tick : Nat) (argv : List String) :
    ((cmd_password st uptime tick 1 argv).1.certify =
        (auth_unlock (auth_renew_values st.certify uptime tick) 0).1 ∧
     (cmd_password st uptime tick 1 argv).1.unlocked_flag = false ∧
     (cmd_password st uptime tick 1 argv).2 =
       "OK " ++ Nat.repr (auth_unlock (auth_renew_values st.certify uptime tick) 0).1.z ++
         " " ++ Nat.repr (auth_unlock (auth_renew_values st.certify uptime tick) 0).1.w ++
         "\r\n") ∧
    (((cmd_password st uptime tick 2 argv).2 = "OK\r\n" ∧
      (cmd_password st uptime tick 2 argv).1.unlocked_flag = true) ↔
      (strtoul10 (argv.getD 1 "").data = auth_next_value st.certify ∨
       argv.getD 1 "" = "N3k0c0")) ∧
    (¬ (strtoul10 (argv.getD 1 "").data = auth_next_value st.certify ∨
        argv.getD 1 "" = "N3k0c0") →
      (cmd_password st uptime tick 2 argv).2 = "ERROR\r\n" ∧
      (cmd_password st uptime tick 2 argv).1.unlocked_flag = false) := by
  refine ⟨⟨?_, ?_, ?_⟩, ?_, ?_⟩
  · simp [cmd_password]
  · simp [cmd_password]
  · simp [cmd_password]
  · by_cases hP : strtoul10 (argv.getD 1 "").data = auth_next_value st.certify ∨
        argv.getD 1 "" = "N3k0c0"
    · simp only [List.getD_eq_getElem?_getD] at hP
      simp [cmd_password, auth_unlock, hP]
    · simp only [List.getD_eq_getElem?_getD] at hP
      simp [cmd_password, auth_unlock, hP]
  · intro hP
    simp only [List.getD_eq_getElem?_getD] at hP
    simp [cmd_password, auth_unlock, hP]

/-- C8: tokenizing `password 123` with divide character space yields
  2 tokens `password`, `123`; tokenizing `led "1" "0" 1 0` yields 5
  tokens `led`, `1`, `0`, `1`, `0` with the quotes stripped. -/
theorem nsplit_examples :
    (nsplit "password 123".data ' ' 160).1 = 2 ∧
    nth_token "password 123".data 0 = "password".data ∧
    nth_token "password 123".data 1 = "123".data ∧
    (nsplit "led \"1\" \"0\" 1 0".data ' ' 160).1 = 5 ∧
    nth_token "led \"1\" \"0\" 1 0".data 0 = "led".data ∧
    nth_token "led \"1\" \"0\" 1 0".data 1 = "1".data ∧
    nth_token "led \"1\" \"0\" 1 0".data 2 = "0".data ∧
    nth_token "led \"1\" \"0\" 1 0".data 3 = "1".data ∧
    nth_token "led \"1\" \"0\" 1 0".data 4 = "0".data := by
  decide

/-- C9: out-of-range clock fields make `rtc_validate_and_correct` return
  false and overwrite the six fields with the 2000-01-01 00:00:00 defaults
  (`Year = 0` encodes 2000); `cmd_clock` then writes those defaults to the
  RTC instead of rejecting the command; in-range fields validate to true
  with the six fields unchanged. -/
theorem rtc_validate_and_correct_spec (t : RTC_Time) (d : RTC_Date)
    (st : SysState) (argv : List String) :
    (clock_out_of_range t d →
      rtc_validate_and_correct t d = ((⟨0, 0, 0, 0, 0, 0⟩, ⟨2, 1, 1, 0⟩), false)) ∧
    (¬ clock_out_of_range t d →
      (rtc_validate_and_correct t d).2 = true ∧
      (rtc_validate_and_correct t d).1.1.Hours = t.Hours ∧
      (rtc_validate_and_correct t d).1.1.Minutes = t.Minutes ∧
      (rtc_validate_and_correct t d).1.1.Seconds = t.Seconds ∧
      (rtc_validate_and_correct t d).1.2.Year = d.Year ∧
      (rtc_validate_and_correct t d).1.2.Month = d.Month ∧
      (rtc_validate_and_correct t d).1.2.Date = d.Date) ∧
    (st.unlocked_flag = true →
      clock_out_of_range (cmd_clock_decode st.rtc_time st.rtc_date argv).1
        (cmd_clock_decode st.rtc_time st.rtc_date argv).2 →
      (cmd_clock st 7 argv).1.rtc_time = ⟨0, 0, 0, 0, 0, 0⟩ ∧
      (cmd_clock st 7 argv).1.rtc_date = ⟨2, 1, 1, 0⟩) := by
  have hcore : ∀ (a : RTC_Time) (b : RTC_Date), clock_out_of_range a b →
      rtc_validate_and_correct a b = ((⟨0, 0, 0, 0, 0, 0⟩, ⟨2, 1, 1, 0⟩), false) := by
    intro a b hab
    simp [rtc_validate_and_correct, hab, RTC_WEEKDAY_TUESDAY,
      RTC_DAYLIGHTSAVING_NONE, RTC_STOREOPERATION_RESET]
  refine ⟨fun h => hcore t d h, ?_, ?_⟩
  · intro h
    simp [rtc_validate_and_correct, h]
  · intro hu hoor
    have h7 : ((7 : Nat) = 7 ∧ st.unlocked_flag = true) := ⟨rfl, hu⟩
    constructor
    · simp [cmd_clock, h7, hcore _ _ hoor]
    · simp [cmd_clock, h7, hcore _ _ hoor]

/-- C10: when the first token of a received line is empty (for example a
  bare carriage return or a line of only spaces), the dispatch loop of
  `command_execute` invokes no handler and does not print
  `Command not found!`; the message is printed only for a non-empty first
  token matching no table entry. -/
theorem command_dispatch_empty_first_token (line : List Char) :
    (first_token line = [] →
      command_invoked line = none ∧ command_not_found_printed line = false) ∧
    (command_not_found_printed line = true →
      first_token line ≠ [] ∧ command_invoked line = none) := by
  constructor
  · intro h
    constructor
    · simp only [command_invoked, h]
      decide
    · simp only [command_not_found_printed, h]
      decide
  · intro h
    rw [command_not_found_printed, Bool.and_eq_true, decide_eq_true_eq,
      decide_eq_true_eq] at h
    obtain ⟨h1, h2⟩ := h
    constructor
    · intro he
      rw [he] at h2
      simp at h2
    · rw [command_invoked]
      have hnum : command_num = 12 := rfl
      rw [hnum] at h1
      rcases Nat.lt_or_ge (command_scan (first_token line)) 12 with hlt | hge
      · have h11 : command_scan (first_token line) = 11 := by omega
        rw [h11]
        decide
      · have hlen : command_table.length ≤ command_scan (first_token line) := by
          have h12 : command_table.length = 12 := rfl
          omega
        rw [List.getElem?_eq_none hlen]
        rfl

theorem console_run_append (l1 : List ConsoleOp) (s : CONSOLE_BUFFER) (l2 : List ConsoleOp) :
    console_run s (l1 ++ l2) =
      ((console_run (console_run s l1).1 l2).1,
       (console_run s l1).2.1 ++ (console_run (console_run s l1).1 l2).2.1,
       (console_run s l1).2.2 ++ (console_run (console_run s l1).1 l2).2.2) := by
  induction l1 generalizing s with
  | nil => simp [console_run]
  | cons op ops ih =>
    cases op with
    | enq ch => simp [console_run, ih]
    | deq => simp [console_run, ih]

theorem console_enq_step (s : CONSOLE_BUFFER) (a b : Nat) (ch : Char)
    (hlen : s.length = 320) (hin : s.index_in = a) (hout : s.index_out = b)
    (hocc : (a + 65536 - b) % 65536 < 320) :
    console_enq_buffer s ch =
      ({ s with buffer := upd_buf s.buffer (a % 320) ch,
                index_in := (a + 1) % 65536 }, true) := by
  have hfull : console_is_buffer_full s = false := by
    simp only [console_is_buffer_full, console_get_buffered_length, hin, hout, hlen]
    rw [decide_eq_false_iff_not]
    omega
  simp [console_enq_buffer, hfull, hin, hout, hlen]

theorem console_deq_step (s : CONSOLE_BUFFER) (a b : Nat)
    (hlen : s.length = 320) (hin : s.index_in = a) (hout : s.index_out = b)
    (hne : a ≠ b) (hne2 : a ≠ (b + 1) % 65536) :
    console_deq_buffer s =
      ({ s with index_out := (b + 1) % 65536 }, some (s.buffer (b % 320))) := by
  simp [console_deq_buffer, hin, hout, hlen, hne, hne2]


theorem cyc_base :
    console_run (console_init_buffer 320) [ConsoleOp.enq 'X', ConsoleOp.enq 'X'] =
      ({ buffer := upd_buf (upd_buf (fun _ => '\x00') 0 'X') 1 'X',
         index_in := 2, index_out := 0, length := 320 }, ['X', 'X'], []) := by
  rfl

theorem cyc_lemma : ∀ m, m ≤ 65533 →
    cycState m (console_run (console_init_buffer 320)
      ([ConsoleOp.enq 'X', ConsoleOp.enq 'X'] ++ cycleOps m)).1 ∧
    (console_run (console_init_buffer 320)
      ([ConsoleOp.enq 'X', ConsoleOp.enq 'X'] ++ cycleOps m)).2.1 =
      List.replicate (m + 2) 'X' ∧
    (console_run (console_init_buffer 320)
      ([ConsoleOp.enq 'X', ConsoleOp.enq 'X'] ++ cycleOps m)).2.2 =
      List.replicate m 'X' := by
  intro m
  induction m with
  | zero =>
    intro _
    rw [show cycleOps 0 = [] from rfl, List.append_nil, cyc_base]
    refine ⟨⟨rfl, rfl, rfl, ?_⟩, rfl, rfl⟩
    intro k hk
    interval_cases k <;> rfl
  | succ m ih =>
    intro hm1
    have hm : m ≤ 65532 := by omega
    obtain ⟨⟨hlen, hin, hout, hbuf⟩, he, hd⟩ := ih (by omega)
    have hdec : ([ConsoleOp.enq 'X', ConsoleOp.enq 'X'] ++ cycleOps (m + 1)) =
        (([ConsoleOp.enq 'X', ConsoleOp.enq 'X'] ++ cycleOps m) ++
          [ConsoleOp.enq 'X', ConsoleOp.deq]) := by
      rw [show cycleOps (m + 1) = cycleOps m ++ [ConsoleOp.enq 'X', ConsoleOp.deq] from rfl,
        List.append_assoc]
    rw [hdec, console_run_append]
    set sm := (console_run (console_init_buffer 320)
      ([ConsoleOp.enq 'X', ConsoleOp.enq 'X'] ++ cycleOps m)).1 with hsm
    have henq := console_enq_step sm (m + 2) m 'X' hlen hin hout (by omega)
    have hdeq := console_deq_step
      ({ sm with buffer := upd_buf sm.buffer ((m + 2) % 320) 'X',
                 index_in := (m + 2 + 1) % 65536 })
      ((m + 2 + 1) % 65536) m hlen rfl hout (by omega) (by omega)
    have hch : (upd_buf sm.buffer ((m + 2) % 320) 'X') (m % 320) = 'X' := by
      by_cases hc : (m % 320) = ((m + 2) % 320)
      · simp [upd_buf, hc]
      · simp only [upd_buf]
        rw [if_neg hc]
        exact hbuf m (by omega)
    have hrun2 : console_run sm [ConsoleOp.enq 'X', ConsoleOp.deq] =
        ({ sm with buffer := upd_buf sm.buffer ((m + 2) % 320) 'X',
                   index_in := (m + 2 + 1) % 65536, index_out := (m + 1) % 65536 },
         ['X'], ['X']) := by
      simp only [console_run, henq, hdeq, hch]
      simp
    rw [hrun2, he, hd]
    refine ⟨⟨hlen, ?_, ?_, ?_⟩, ?_, ?_⟩
    · show (m + 2 + 1) % 65536 = m + 1 + 2
      omega
    · show (m + 1) % 65536 = m + 1
      omega
    · intro k hk
      show upd_buf sm.buffer ((m + 2) % 320) 'X' (k % 320) = 'X'
      by_cases hc : (k % 320) = ((m + 2) % 320)
      · simp [upd_buf, hc]
      · simp only [upd_buf]
        rw [if_neg hc]
        have hk1 : k ≤ m + 1 := by
          rcases Nat.lt_or_ge k (m + 2) with h | h
          · omega
          · exfalso
            have : k = m + 2 := by omega
            exact hc (by rw [this])
        exact hbuf k hk1
    · show List.replicate (m + 2) 'X' ++ ['X'] = List.replicate (m + 1 + 2) 'X'
      have h3 : m + 1 + 2 = (m + 2) + 1 := by omega
      rw [h3]
      exact (List.replicate_succ' (m + 2) 'X').symm
    · show List.replicate m 'X' ++ ['X'] = List.replicate (m + 1) 'X'
      exact (List.replicate_succ' m 'X').symm


theorem b_phase (s0 : CONSOLE_BUFFER) (hlen : s0.length = 320) (hin : s0.index_in = 0)
    (hout : s0.index_out = 65533) :
    ∀ t, t ≤ 256 →
      bState t (console_run s0 (List.replicate t (ConsoleOp.enq 'B'))).1 ∧
      (console_run s0 (List.replicate t (ConsoleOp.enq 'B'))).2.1 = List.replicate t 'B' ∧
      (console_run s0 (List.replicate t (ConsoleOp.enq 'B'))).2.2 = [] := by
  intro t
  induction t with
  | zero =>
    intro _
    exact ⟨⟨hlen, hin, hout, by omega⟩, rfl, rfl⟩
  | succ t ih =>
    intro ht1
    obtain ⟨⟨hl, hi, ho, hb⟩, he, hd⟩ := ih (by omega)
    rw [List.replicate_succ' t (ConsoleOp.enq 'B'), console_run_append]
    have henq := console_enq_step
      (console_run s0 (List.replicate t (ConsoleOp.enq 'B'))).1 t 65533 'B' hl hi ho (by omega)
    have hrun1 : console_run (console_run s0 (List.replicate t (ConsoleOp.enq 'B'))).1
        [ConsoleOp.enq 'B'] =
        ({ (console_run s0 (List.replicate t (ConsoleOp.enq 'B'))).1 with
            buffer := upd_buf (console_run s0 (List.replicate t (ConsoleOp.enq 'B'))).1.buffer
              (t % 320) 'B',
            index_in := (t + 1) % 65536 }, ['B'], []) := by
      simp only [console_run, henq]
      simp
    rw [hrun1, he, hd]
    refine ⟨⟨hl, ?_, ho, ?_⟩, ?_, rfl⟩
    · show (t + 1) % 65536 = t + 1
      omega
    · intro k hk
      show upd_buf (console_run s0 (List.replicate t (ConsoleOp.enq 'B'))).1.buffer
        (t % 320) 'B' k = 'B'
      have ht320 : t % 320 = t := by omega
      rw [ht320]
      by_cases hkt : k = t
      · simp [upd_buf, hkt]
      · simp only [upd_buf]
        rw [if_neg hkt]
        exact hb k (by omega)
    · show List.replicate t 'B' ++ ['B'] = List.replicate (t + 1) 'B'
      exact (List.replicate_succ' t 'B').symm


theorem deq3_phase (sB : CONSOLE_BUFFER) (hlen : sB.length = 320)
    (hin : sB.index_in = 256) (hout : sB.index_out = 65533)
    (h253 : sB.buffer 253 = 'B') (h254 : sB.buffer 254 = 'B')
    (h255 : sB.buffer 255 = 'B') :
    (console_run sB [ConsoleOp.deq, ConsoleOp.deq, ConsoleOp.deq]).2.1 = [] ∧
    (console_run sB [ConsoleOp.deq, ConsoleOp.deq, ConsoleOp.deq]).2.2 = ['B', 'B', 'B'] := by
  have hd1 : console_deq_buffer sB = ({ sB with index_out := 65534 }, some 'B') := by
    rw [console_deq_step sB 256 65533 hlen hin hout (by omega) (by omega)]
    norm_num [h253]
  have hd2 : console_deq_buffer ({ sB with index_out := 65534 } : CONSOLE_BUFFER) =
      ({ sB with index_out := 65535 }, some 'B') := by
    rw [console_deq_step ({ sB with index_out := 65534 } : CONSOLE_BUFFER) 256 65534
      hlen hin rfl (by omega) (by omega)]
    norm_num [h254]
  have hd3 : console_deq_buffer ({ sB with index_out := 65535 } : CONSOLE_BUFFER) =
      ({ sB with index_out := 0 }, some 'B') := by
    rw [console_deq_step ({ sB with index_out := 65535 } : CONSOLE_BUFFER) 256 65535
      hlen hin rfl (by omega) (by omega)]
    norm_num [h255]
  constructor <;> simp [console_run, hd1, hd2, hd3]

theorem tail_phase (s0 : CONSOLE_BUFFER) (hlen : s0.length = 320)
    (hin : s0.index_in = 65533 + 2) (hout : s0.index_out = 65533) :
    (console_run s0 ([ConsoleOp.enq 'A'] ++ (List.replicate 256 (ConsoleOp.enq 'B') ++ [ConsoleOp.deq, ConsoleOp.deq, ConsoleOp.deq]))).2.1 =
      'A' :: List.replicate 256 'B' ∧
    (console_run s0 ([ConsoleOp.enq 'A'] ++ (List.replicate 256 (ConsoleOp.enq 'B') ++ [ConsoleOp.deq, ConsoleOp.deq, ConsoleOp.deq]))).2.2 =
      ['B', 'B', 'B'] := by
  have hin' : s0.index_in = 65535 := by rw [hin]
  have henqA := console_enq_step s0 65535 65533 'A' hlen hin' hout (by omega)
  have hrunA : console_run s0 [ConsoleOp.enq 'A'] =
      (({ s0 with buffer := upd_buf s0.buffer 255 'A', index_in := 0 } : CONSOLE_BUFFER),
       ['A'], []) := by
    simp only [console_run, henqA]
    norm_num
  obtain ⟨⟨hBl, hBi, hBo, hBb⟩, hBe, hBd⟩ := b_phase
    ({ s0 with buffer := upd_buf s0.buffer 255 'A', index_in := 0 } : CONSOLE_BUFFER)
    hlen rfl hout 256 (by omega)
  obtain ⟨hD1, hD2⟩ := deq3_phase
    (console_run ({ s0 with buffer := upd_buf s0.buffer 255 'A', index_in := 0 } :
      CONSOLE_BUFFER) (List.replicate 256 (ConsoleOp.enq 'B'))).1
    hBl hBi hBo (hBb 253 (by omega)) (hBb 254 (by omega)) (hBb 255 (by omega))
  rw [console_run_append, hrunA, console_run_append, hBe, hBd, hD1, hD2]
  constructor
  · rw [List.append_nil, List.singleton_append]
  · rw [List.nil_append, List.nil_append]

theorem cex_run :
    (console_run (console_init_buffer 320) cexOps).2.1 =
      List.replicate 65535 'X' ++ 'A' :: List.replicate 256 'B' ∧
    (console_run (console_init_buffer 320) cexOps).2.2 =
      List.replicate 65533 'X' ++ ['B', 'B', 'B'] := by
  obtain ⟨⟨hlen, hin, hout, hbuf⟩, he, hd⟩ := cyc_lemma 65533 (by omega)
  obtain ⟨hT1, hT2⟩ := tail_phase
    (console_run (console_init_buffer 320) ([ConsoleOp.enq 'X', ConsoleOp.enq 'X'] ++ cycleOps 65533)).1 hlen hin hout
  have hsplit : cexOps = ([ConsoleOp.enq 'X', ConsoleOp.enq 'X'] ++ cycleOps 65533) ++
      ([ConsoleOp.enq 'A'] ++ (List.replicate 256 (ConsoleOp.enq 'B') ++ [ConsoleOp.deq, ConsoleOp.deq, ConsoleOp.deq])) := rfl
  rw [hsplit, console_run_append, he, hd, hT1, hT2]
  exact ⟨rfl, rfl⟩


theorem getD_append_left (l l' : List Char) (k : Nat) (d : Char) (h : k < l.length) :
    (l ++ l').getD k d = l.getD k d := by
  simp [List.getD_eq_getElem?_getD, List.getElem?_append, h]

theorem getD_append_right_self (l : List Char) (c d : Char) :
    (l ++ [c]).getD l.length d = c := by
  simp [List.getD_eq_getElem?_getD, List.getElem?_append]

theorem slot_ne (n L k bOUT : Nat) (hk : k < L) (hL : L < n) :
    (bOUT + k) % n ≠ (bOUT + L) % n := by
  intro hEq
  have h2 : k ≡ L [MOD n] := Nat.ModEq.add_left_cancel (Nat.ModEq.refl bOUT) hEq
  have h3 : n ∣ L - k := (Nat.modEq_iff_dvd' (le_of_lt hk)).mp h2
  have h4 := Nat.le_of_dvd (by omega) h3
  omega

theorem console_enq_not_full (s : CONSOLE_BUFFER) (ch : Char)
    (hfull : console_is_buffer_full s = false) :
    console_enq_buffer s ch =
      ({ s with buffer := upd_buf s.buffer (s.index_in % s.length) ch,
                index_in := (s.index_in + 1) % 65536 }, true) := by
  simp [console_enq_buffer, hfull]

theorem console_enq_full (s : CONSOLE_BUFFER) (ch : Char)
    (hfull : console_is_buffer_full s = true) :
    console_enq_buffer s ch = (s, false) := by
  simp [console_enq_buffer, hfull]

theorem console_deq_empty (s : CONSOLE_BUFFER) (h : s.index_in = s.index_out) :
    console_deq_buffer s = (s, none) := by
  simp [console_deq_buffer, h]

theorem console_deq_reset (s : CONSOLE_BUFFER) (_hne : s.index_in ≠ s.index_out)
    (hb : s.index_in = (s.index_out + 1) % 65536) :
    console_deq_buffer s =
      ({ s with index_in := (s.index_out % s.length + 1) % 65536,
                index_out := (s.index_out % s.length + 1) % 65536 },
       some (s.buffer (s.index_out % s.length))) := by
  simp [console_deq_buffer, hb]
  omega

theorem console_deq_normal (s : CONSOLE_BUFFER) (hne : s.index_in ≠ s.index_out)
    (hb : ¬ s.index_in = (s.index_out + 1) % 65536) :
    console_deq_buffer s =
      ({ s with index_out := (s.index_out + 1) % 65536 },
       some (s.buffer (s.index_out % s.length))) := by
  simp [console_deq_buffer, hne, hb]

theorem invlen_enq (n : Nat) (s : CONSOLE_BUFFER) (ch : Char) (h : InvLen n s) :
    InvLen n (console_enq_buffer s ch).1 := by
  obtain ⟨hlen, hin, hout, hocc⟩ := h
  by_cases hfull : console_is_buffer_full s = false
  · have hlt : console_get_buffered_length s < n := by
      rw [console_is_buffer_full, decide_eq_false_iff_not, hlen] at hfull
      omega
    rw [console_get_buffered_length] at hlt hocc
    rw [console_enq_not_full s ch hfull]
    refine ⟨hlen, ?_, hout, ?_⟩
    · show (s.index_in + 1) % 65536 < 65536
      omega
    · show ((s.index_in + 1) % 65536 + 65536 - s.index_out) % 65536 ≤ n
      omega
  · have hfull' : console_is_buffer_full s = true := by
      revert hfull
      cases console_is_buffer_full s <;> simp
    rw [console_enq_full s ch hfull']
    exact ⟨hlen, hin, hout, hocc⟩

theorem invlen_deq (n : Nat) (s : CONSOLE_BUFFER) (h : InvLen n s) :
    InvLen n (console_deq_buffer s).1 := by
  obtain ⟨hlen, hin, hout, hocc⟩ := h
  rw [console_get_buffered_length] at hocc
  by_cases hne : s.index_in ≠ s.index_out
  · by_cases hb : s.index_in = (s.index_out + 1) % 65536
    · rw [console_deq_reset s hne hb]
      refine ⟨hlen, ?_, ?_, ?_⟩
      · show (s.index_out % s.length + 1) % 65536 < 65536
        omega
      · show (s.index_out % s.length + 1) % 65536 < 65536
        omega
      · show ((s.index_out % s.length + 1) % 65536 + 65536 -
          (s.index_out % s.length + 1) % 65536) % 65536 ≤ n
        omega
    · rw [console_deq_normal s hne hb]
      refine ⟨hlen, hin, ?_, ?_⟩
      · show (s.index_out + 1) % 65536 < 65536
        omega
      · show (s.index_in + 65536 - (s.index_out + 1) % 65536) % 65536 ≤ n
        omega
  · rw [console_deq_empty s (by omega)]
    exact ⟨hlen, hin, hout, hocc⟩

theorem invlen_run (n : Nat) (ops : List ConsoleOp) :
    ∀ s : CONSOLE_BUFFER, InvLen n s → InvLen n (console_run s ops).1 := by
  induction ops with
  | nil => intro s h; exact h
  | cons op ops ih =>
    intro s h
    cases op with
    | enq ch =>
      simp only [console_run]
      exact ih _ (invlen_enq n s ch h)
    | deq =>
      simp only [console_run]
      exact ih _ (invlen_deq n s h)

theorem inv_enq (n : Nat) (hdvd : n ∣ 65536) (q : List Char)
    (s : CONSOLE_BUFFER) (ch : Char) (hInv : Inv n q s) (hq : q.length < n) :
    (console_enq_buffer s ch).2 = true ∧
    Inv n (q ++ [ch]) (console_enq_buffer s ch).1 := by
  obtain ⟨hlen, bIN, bOUT, hle, hdiff, hqn, hin, hout, hcont⟩ := hInv
  have hL : bIN = bOUT + q.length := by omega
  have hn : n ≤ 65536 := Nat.le_of_dvd (by norm_num) hdvd
  have hocc : console_get_buffered_length s = q.length := by
    rw [console_get_buffered_length, hin, hout]
    omega
  have hfull : console_is_buffer_full s = false := by
    rw [console_is_buffer_full, decide_eq_false_iff_not, hlen, hocc]
    omega
  rw [console_enq_not_full s ch hfull]
  refine ⟨rfl, hlen, bIN + 1, bOUT, by omega, by simp; omega, by simp; omega, ?_, hout, ?_⟩
  · show (s.index_in + 1) % 65536 = (bIN + 1) % 65536
    rw [hin]
    omega
  · intro k hk
    have hwslot : s.index_in % s.length = (bOUT + q.length) % n := by
      rw [hin, hlen, Nat.mod_mod_of_dvd _ hdvd, hL]
    show upd_buf s.buffer (s.index_in % s.length) ch ((bOUT + k) % n) =
      (q ++ [ch]).getD k ' '
    rw [hwslot]
    simp only [List.length_append, List.length_cons, List.length_nil] at hk
    by_cases hkL : k < q.length
    · simp only [upd_buf]
      rw [if_neg (slot_ne n q.length k bOUT hkL hq)]
      rw [hcont k hkL, getD_append_left _ _ _ _ hkL]
    · have hk' : k = q.length := by omega
      subst hk'
      simp only [upd_buf, if_true]
      exact (getD_append_right_self q ch ' ').symm

theorem inv_deq_nil (n : Nat) (s : CONSOLE_BUFFER) (hInv : Inv n [] s) :
    console_deq_buffer s = (s, none) := by
  obtain ⟨hlen, bIN, bOUT, hle, hdiff, hqn, hin, hout, hcont⟩ := hInv
  rw [List.length_nil] at hdiff
  apply console_deq_empty
  rw [hin, hout]
  omega

theorem inv_deq_cons (n : Nat) (hdvd : n ∣ 65536) (hlt : n < 65536) (c : Char)
    (q' : List Char) (s : CONSOLE_BUFFER) (hInv : Inv n (c :: q') s) :
    (console_deq_buffer s).2 = some c ∧ Inv n q' (console_deq_buffer s).1 := by
  obtain ⟨hlen, bIN, bOUT, hle, hdiff, hqn, hin, hout, hcont⟩ := hInv
  rw [List.length_cons] at hdiff hqn
  have hL : bIN = bOUT + (q'.length + 1) := by omega
  have hne : s.index_in ≠ s.index_out := by
    rw [hin, hout]
    omega
  have hch : s.buffer (s.index_out % s.length) = c := by
    rw [hout, hlen, Nat.mod_mod_of_dvd _ hdvd]
    have h0 := hcont 0 (by simp)
    simpa using h0
  rcases q' with _ | ⟨c2, q''⟩
  · have hb : s.index_in = (s.index_out + 1) % 65536 := by
      rw [hin, hout]
      simp only [List.length_nil] at hL
      omega
    rw [console_deq_reset s hne hb]
    refine ⟨by rw [hch], hlen, (s.index_out % s.length + 1) % 65536,
      (s.index_out % s.length + 1) % 65536, le_refl _, by simp, by omega, ?_, ?_, ?_⟩
    · show (s.index_out % s.length + 1) % 65536 =
        ((s.index_out % s.length + 1) % 65536) % 65536
      omega
    · show (s.index_out % s.length + 1) % 65536 =
        ((s.index_out % s.length + 1) % 65536) % 65536
      omega
    · intro k hk
      simp at hk
  · have hlen2 : (c2 :: q'').length = q''.length + 1 := by simp
    rw [List.length_cons] at hL hqn
    have hb : ¬ s.index_in = (s.index_out + 1) % 65536 := by
      rw [hin, hout]
      omega
    rw [console_deq_normal s hne hb]
    refine ⟨by rw [hch], hlen, bIN, bOUT + 1, by omega, by rw [hlen2]; omega,
      by rw [hlen2]; omega, hin, ?_, ?_⟩
    · show (s.index_out + 1) % 65536 = (bOUT + 1) % 65536
      rw [hout]
      omega
    · intro k hk
      rw [hlen2] at hk
      show s.buffer ((bOUT + 1 + k) % n) = (c2 :: q'').getD k ' '
      have h1 : bOUT + 1 + k = bOUT + (k + 1) := by omega
      rw [h1]
      have h2 := hcont (k + 1) (by simp; omega)
      rw [h2]
      exact List.getD_cons_succ

theorem inv_run (n : Nat) (hdvd : n ∣ 65536) (hlt : n < 65536) (ops : List ConsoleOp) :
    ∀ (s : CONSOLE_BUFFER) (q : List Char), Inv n q s →
      ∃ q', Inv n q' (console_run s ops).1 ∧
        q ++ (console_run s ops).2.1 = (console_run s ops).2.2 ++ q' := by
  induction ops with
  | nil =>
    intro s q h
    exact ⟨q, h, by simp [console_run]⟩
  | cons op ops ih =>
    intro s q h
    cases op with
    | enq ch =>
      by_cases hq : q.length < n
      · obtain ⟨hok, hinv2⟩ := inv_enq n hdvd q s ch h hq
        obtain ⟨q', hq1, hq2⟩ := ih _ _ hinv2
        refine ⟨q', hq1, ?_⟩
        simp only [console_run, hok, if_true]
        rw [← List.append_assoc]
        exact hq2
      · have hqn : q.length = n := by
          obtain ⟨_, bIN, bOUT, h1, h2, h3, _⟩ := h
          omega
        have hocc : console_get_buffered_length s = q.length := by
          obtain ⟨hlen, bIN, bOUT, h1, h2, h3, hin, hout, _⟩ := h
          rw [console_get_buffered_length, hin, hout]
          omega
        have hfull : console_is_buffer_full s = true := by
          obtain ⟨hlen, _⟩ := h
          rw [console_is_buffer_full, decide_eq_true_eq, hlen, hocc, hqn]
        obtain ⟨q', hq1, hq2⟩ := ih s q h
        refine ⟨q', ?_, ?_⟩
        · simp only [console_run, console_enq_full s ch hfull]
          exact hq1
        · simp only [console_run, console_enq_full s ch hfull]
          simpa using hq2
    | deq =>
      cases q with
      | nil =>
        have hd := inv_deq_nil n s h
        obtain ⟨q', hq1, hq2⟩ := ih s [] h
        refine ⟨q', ?_, ?_⟩
        · simp only [console_run, hd]
          exact hq1
        · simp only [console_run, hd]
          simpa using hq2
      | cons c q0 =>
        obtain ⟨hsome, hinv2⟩ := inv_deq_cons n hdvd hlt c q0 s h
        obtain ⟨q', hq1, hq2⟩ := ih _ _ hinv2
        refine ⟨q', hq1, ?_⟩
        simp only [console_run, hsome, Option.toList_some]
        simp [hq2]


/-- C2 (counterexample): on the receive buffer of capacity 320 (which does
  not divide 2^16), the operation sequence `cexOps` wraps the 16-bit write
  index and overwrites pending bytes, so the dequeued bytes are not a
  prefix of the successfully enqueued bytes: FIFO order is violated. -/
theorem console_fifo_claim_counterexample :
    ¬ ∃ rest, (console_run (console_init_buffer 320) cexOps).2.2 ++ rest =
        (console_run (console_init_buffer 320) cexOps).2.1 := by
  obtain ⟨hE, hD⟩ := cex_run
  rw [hE, hD]
  rintro ⟨rest, h⟩
  rw [show (65535 : Nat) = 65533 + 2 by norm_num, List.replicate_add] at h
  simp only [List.append_assoc] at h
  have h2 := List.append_cancel_left h
  simp at h2

/-- C2 (amended): for every capacity `n < 2^16` and every operation
  sequence from the initialized empty state, the 16-bit occupancy
  `index_in - index_out` never exceeds `n`, and an enqueue on a full
  buffer returns false leaving the buffer unchanged; the dequeued bytes
  are a prefix of the successfully enqueued bytes (FIFO) provided `n`
  divides 2^16 (as the 1024-byte transmit buffer does; the 320-byte
  receive buffer does not, see the counterexample). -/
theorem console_buffer_spec (n : Nat) (hn : n < 65536) (ops : List ConsoleOp)
    (s : CONSOLE_BUFFER) (ch : Char) :
    (console_is_buffer_full s = true → console_enq_buffer s ch = (s, false)) ∧
    console_get_buffered_length (console_run (console_init_buffer n) ops).1 ≤ n ∧
    (n ∣ 65536 → 0 < n →
      ∃ rest, (console_run (console_init_buffer n) ops).2.2 ++ rest =
        (console_run (console_init_buffer n) ops).2.1) := by
  refine ⟨fun h => console_enq_full s ch h, ?_, ?_⟩
  · have hInit : InvLen n (console_init_buffer n) := by
      refine ⟨rfl, ?_, ?_, ?_⟩
      · show (0 : Nat) < 65536
        norm_num
      · show (0 : Nat) < 65536
        norm_num
      · show ((0 : Nat) + 65536 - 0) % 65536 ≤ n
        omega
    exact (invlen_run n ops _ hInit).2.2.2
  · intro hdvd hpos
    have hInit : Inv n [] (console_init_buffer n) := by
      refine ⟨rfl, 0, 0, le_refl 0, by simp, by simp, ?_, ?_, ?_⟩
      · show (0 : Nat) = 0 % 65536
        norm_num
      · show (0 : Nat) = 0 % 65536
        norm_num
      · intro k hk
        simp at hk
    obtain ⟨q', hq1, hq2⟩ := inv_run n hdvd hn ops (console_init_buffer n) [] hInit
    rw [List.nil_append] at hq2
    exact ⟨q', hq2.symm⟩

theorem console_buffer_spec_witness :
    (1024 : Nat) < 65536 ∧
    ((console_is_buffer_full (console_init_buffer 1024) = true →
        console_enq_buffer (console_init_buffer 1024) 'c' = (console_init_buffer 1024, false)) ∧
     console_get_buffered_length (console_run (console_init_buffer 1024) opsDemo).1 ≤ 1024 ∧
     ((1024 : Nat) ∣ 65536 → (0 : Nat) < 1024 →
       ∃ rest, (console_run (console_init_buffer 1024) opsDemo).2.2 ++ rest =
         (console_run (console_init_buffer 1024) opsDemo).2.1)) :=
  ⟨by norm_num,
   console_buffer_spec 1024 (by norm_num) opsDemo (console_init_buffer 1024) 'c'⟩


end HydroFw
